import Mathlib

/-!
# Verification of the OptiSharp benchmark matrix / comparison pipeline

Shallow embedding of the Python sources
`src/OptiSharp.Benchmarks/python/objectives.py`,
`src/OptiSharp.Benchmarks/python/optuna_matrix.py` and
`src/OptiSharp.Benchmarks/python/generate_report.py`.

Conventions of the embedding:
* Python `float` values that only flow through comparisons and exact
  operations are modelled as `PyFloat` (a rational together with the three
  non-finite IEEE values).  IEEE comparison semantics (`==`, `<`, `>=`) are
  modelled exactly; float *arithmetic* on finite values is modelled by exact
  rational arithmetic (every IEEE double is a rational, and no claim below
  depends on rounding of finite arithmetic).
* Fallible Python code (functions that can raise) returns `Except`/`Option`.
* Wall-clock quantities (`elapsed_ms`, `trials_per_second`) are real time and
  are not embedded; no claim mentions them.
* The external optimization provider (optuna samplers/pruners) is abstracted,
  per the provider contract, as oracles passed to the driver: the outcome of
  "suggest parameters + evaluate objective" for each trial, and the
  `should_prune` answer for each (trial, step).
-/

namespace OptiSharp

/-! ## IEEE double values used by the report pipeline (`generate_report.py`)

`PyFloat` models a Python float for the purposes of comparison and formatting:
a finite value (the exact rational value of the double), `+inf`, `-inf`
or `nan`. -/

inductive PyFloat where
  | finite (q : ℚ)
  | posInf
  | negInf
  | nan
deriving DecidableEq, Repr

namespace PyFloat

/-- IEEE `==` on doubles: `nan` compares unequal to everything. -/
def beq : PyFloat → PyFloat → Bool
  | finite a, finite b => a = b
  | posInf, posInf => true
  | negInf, negInf => true
  | _, _ => false

/-- IEEE `<` on doubles: any comparison involving `nan` is `false`. -/
def blt : PyFloat → PyFloat → Bool
  | finite a, finite b => a < b
  | finite _, posInf => true
  | negInf, finite _ => true
  | negInf, posInf => true
  | _, _ => false

/-- IEEE `>=`: `x >= y` iff `y < x` or `y == x` (false whenever `nan` occurs). -/
def bge (x y : PyFloat) : Bool := blt y x || beq y x

/-- IEEE `abs` on doubles. -/
def pabs : PyFloat → PyFloat
  | finite q => finite |q|
  | posInf => posInf
  | negInf => posInf
  | nan => nan

/-- Division of a double by a positive finite constant (used for `value/1000`). -/
def divConst (x : PyFloat) (c : ℚ) : PyFloat :=
  match x with
  | finite q => finite (q / c)
  | posInf => posInf
  | negInf => negInf
  | nan => nan

end PyFloat

/-! ## `objectives.py`: deterministic intermediate-value synthesis

`get_intermediate_value` seeds `np.random.RandomState(seed ^ trial_number ^ step)`
and draws one uniform sample in `[0, 1)`.  The numpy legacy generator is
MT19937; we embed its seeding, twist, tempering and `random_sample` double
construction exactly (model of the external `numpy` collaborator).  All
quantities are 32-bit words modelled as `Nat` reduced `% 2^32`. -/

def mtMask : ℕ := 2 ^ 32

/-- MT19937 state initialisation: `s₀ = seed mod 2³²`,
`sᵢ = (1812433253 * (sᵢ₋₁ xor (sᵢ₋₁ >>> 30)) + i) mod 2³²`. -/
def mtInitState (seed : ℕ) : Array ℕ :=
  (List.range 623).foldl
    (fun a i => a.push ((1812433253 * (Nat.xor (a.getD (a.size - 1) 0) ((a.getD (a.size - 1) 0) >>> 30)) + (i + 1)) % mtMask))
    #[seed % mtMask]

/-- One step of the MT19937 twist (in place, index `i`). -/
def mtTwistStep (a : Array ℕ) (i : ℕ) : Array ℕ :=
  let y := ((a.getD i 0) &&& 0x80000000) + ((a.getD ((i + 1) % 624) 0) &&& 0x7fffffff)
  let v := Nat.xor (a.getD ((i + 397) % 624) 0) (y >>> 1)
  let v := if y % 2 = 1 then Nat.xor v 0x9908b0df else v
  a.setD i v

/-- Full MT19937 twist over the 624-word state. -/
def mtTwist (a : Array ℕ) : Array ℕ :=
  (List.range 624).foldl mtTwistStep a

/-- MT19937 tempering of one output word. -/
def mtTemper (x : ℕ) : ℕ :=
  let y := Nat.xor x (x >>> 11)
  let y := Nat.xor y ((y <<< 7) &&& 0x9d2c5680)
  let y := Nat.xor y ((y <<< 15) &&& 0xefc60000)
  Nat.xor y (y >>> 18)

/-- Model of `np.random.RandomState(seed).uniform(0, 1)`: the first
`random_sample` double, built from the first two tempered 32-bit outputs
as `((a >>> 5) * 2²⁶ + (b >>> 6)) / 2⁵³`. -/
def mtUniform01 (seed : ℕ) : ℚ :=
  let a := mtTwist (mtInitState seed)
  let x := mtTemper (a.getD 0 0)
  let y := mtTemper (a.getD 1 0)
  (((x >>> 5) * 67108864 + (y >>> 6) : ℕ) : ℚ) / 9007199254740992

/-- Embeds `objectives.get_intermediate_value(true_value, step, trial_number, seed)`:
returns `true_value` exactly at `step == 9`; otherwise scales it by
`1 + (9 - step) * 0.5 * noise` where `noise` is the seeded uniform sample for
`seed xor trial_number xor step`.  (Finite float arithmetic modelled exactly
over ℚ; `0.5` is exact in binary.) -/
def get_intermediate_value (true_value : ℚ) (step : ℕ) (trial_number : ℕ)
    (seed : ℕ := 42) : ℚ :=
  if step = 9 then
    true_value
  else
    let noise := mtUniform01 (Nat.xor (Nat.xor seed trial_number) step)
    true_value * (1 + ((9 : ℚ) - step) * (1 / 2) * noise)

/-! ## `optuna_matrix.py`: the trial driver `run_benchmark`

The external optimization provider is abstracted by two oracles, per the
provider contract of the spec:
* `evalR t` — the combined outcome of "suggest a parameter vector for trial
  `t` and evaluate the objective on it": either a provider-level exception
  (`.err`) or the objective value (`.value v`);
* `shouldPrune t step` — the provider's answer to `trial.should_prune()`
  right after the intermediate report at `step` of trial `t`.

`study.best_value` (minimization) is the minimum over COMPLETE trial values,
and raises when no trial has completed yet — modelled by `Option`/`Except`. -/

/-- Outcome of suggesting parameters and evaluating the objective for one
trial: a provider-level exception, or the true objective value. -/
inductive TrialEval where
  | err
  | value (v : ℚ)
deriving DecidableEq, Repr

/-- The six configuration arguments of `run_benchmark`.  `n_trials` is a
natural number (a negative `--trials` makes `study.optimize` run zero
trials, which coincides with `n_trials = 0`). -/
structure MatrixConfig where
  sampler : String
  objective : String
  n_params : ℤ
  n_trials : ℕ
  pruner : String
  tier : String
deriving DecidableEq, Repr

/-- Ways `run_benchmark` raises: the three explicit `ValueError`s for unknown
names (`get_objective`, sampler dispatch, pruner dispatch) and the
`ValueError` raised by `study.best_value` when no trial has completed. -/
inductive BenchError where
  | unknownObjective
  | unknownSampler
  | unknownPruner
  | noCompletedTrials
deriving DecidableEq, Repr

/-- Mutable state of the `study.optimize` loop in `run_benchmark`:
the closure variables `convergence`, `checkpoint_idx`, `pruned_count`, the
study's list of completed-trial values, plus bookkeeping for how many trials
were started (`executed`) and whether an exception escaped the objective and
aborted `study.optimize` (`aborted`). -/
structure LoopState where
  completed : List ℚ
  pruned_count : ℕ
  convergence : List ℚ
  checkpoint_idx : ℕ
  executed : ℕ
  aborted : Bool
deriving DecidableEq, Repr

def initState : LoopState := ⟨[], 0, [], 0, 0, false⟩

/-- Embeds `int(n_trials * checkpoints[idx])` for `checkpoints = [0.2,0.4,0.6,0.8,1.0]`.
For every `n_trials < 2⁵⁰` the IEEE computation
`int(float(n) * 0.2)` etc. equals `⌊n * (idx+1) / 5⌋` exactly (the double
nearest `k/5` times `n` rounds to, or truncates within, the same integer),
so the checkpoint boundary is embedded as exact natural division. -/
def checkpointTrial (n_trials : ℕ) (idx : ℕ) : ℕ :=
  n_trials * (idx + 1) / 5

/-- Embeds `study.best_value` for a minimization study: minimum over values of
completed trials; `none` models the `ValueError` raised when none exist. -/
def bestValue? (st : LoopState) : Option ℚ := st.completed.min?

/-- One iteration of `study.optimize`'s trial loop, trial number `t`
(the body of `objective` plus optuna's handling of its outcome).
If a previous trial aborted the loop, nothing further runs.
Order mirrors the source: suggest+evaluate (a provider exception here marks
the trial failed and aborts `study.optimize`); if pruning is enabled, steps
0–9 report the intermediate value and query `should_prune`, a pruned trial
increments `pruned_count` and ends without completing (loop continues);
otherwise the convergence checkpoint may fire — `convergence.append(study.best_value)`
BEFORE the current trial completes, which raises (aborting the loop) when no
trial has completed yet; finally the returned value marks the trial COMPLETE. -/
def trialStep (cfg : MatrixConfig) (evalR : ℕ → TrialEval)
    (shouldPrune : ℕ → ℕ → Bool) (st : LoopState) (t : ℕ) : LoopState :=
  if st.aborted then st
  else
    let st := { st with executed := st.executed + 1 }
    match evalR t with
    | .err => { st with aborted := true }
    | .value v =>
      if cfg.pruner ≠ "none" ∧ ((List.range 10).any fun step => shouldPrune t step) then
        { st with pruned_count := st.pruned_count + 1 }
      else
        if st.checkpoint_idx < 5 ∧ checkpointTrial cfg.n_trials st.checkpoint_idx ≤ t + 1 then
          match bestValue? st with
          | none => { st with aborted := true }
          | some b =>
            { st with
              convergence := st.convergence ++ [b]
              checkpoint_idx := st.checkpoint_idx + 1
              completed := st.completed ++ [v] }
        else
          { st with completed := st.completed ++ [v] }

/-- State of the loop after trials `0, …, m-1` have been processed. -/
def loopUpTo (cfg : MatrixConfig) (evalR : ℕ → TrialEval)
    (shouldPrune : ℕ → ℕ → Bool) (m : ℕ) : LoopState :=
  (List.range m).foldl (trialStep cfg evalR shouldPrune) initState

/-- The full `study.optimize(objective, n_trials=n_trials)` call (the
surrounding `try/except Exception: pass` is structural: an abort simply
stops the loop and `run_benchmark` continues with the final state). -/
def optimizeLoop (cfg : MatrixConfig) (evalR : ℕ → TrialEval)
    (shouldPrune : ℕ → ℕ → Bool) : LoopState :=
  loopUpTo cfg evalR shouldPrune cfg.n_trials

/-- The fields of the `BenchmarkResult` built by `run_benchmark`
(`optuna_matrix.BenchmarkResult`).  The wall-clock fields `elapsed_ms` and
`trials_per_second` are real time and are not embedded. -/
structure MatrixResult where
  framework : String
  sampler : String
  objective : String
  n_params : ℤ
  n_trials : ℕ
  pruner : String
  tier : String
  best_value : ℚ
  pruned_trials : ℕ
  pruning_rate : ℚ
  convergence : List ℚ
  seed : ℕ
deriving DecidableEq, Repr

def validSampler (s : String) : Bool := s = "tpe" || s = "random" || s = "cmaes"

def validPruner (s : String) : Bool := s = "none" || s = "median" || s = "sha"

def validObjective (s : String) : Bool :=
  s = "sphere" || s = "rosenbrock" || s = "rastrigin" || s = "ackley"

/-- The configuration-validation prefix of `run_benchmark`, in source order:
`get_objective` raises for an unknown objective name, then the sampler
dispatch, then the pruner dispatch.  `n_params` and `n_trials` are not
inspected here.  Returns the error raised, if any. -/
def checkConfig (cfg : MatrixConfig) : Option BenchError :=
  if ¬ validObjective cfg.objective then some .unknownObjective
  else if ¬ validSampler cfg.sampler then some .unknownSampler
  else if ¬ validPruner cfg.pruner then some .unknownPruner
  else none

/-- Embeds `while len(convergence) < 5: convergence.append(study.best_value)`. -/
def padConvergence (conv : List ℚ) (best : ℚ) : List ℚ :=
  conv ++ List.replicate (5 - conv.length) best

/-- Embeds `run_benchmark(sampler, n_params, n_trials, objective, pruner, tier)`:
validate names, run the trial loop, pad the convergence list to 5 entries
with `study.best_value` (which raises `ValueError` when no trial completed —
and then `best_value=study.best_value` in the result would raise the same
error, so the two raise sites collapse to one `noCompletedTrials`), truncate
to 5, and assemble the result. -/
def run_benchmark (cfg : MatrixConfig) (evalR : ℕ → TrialEval)
    (shouldPrune : ℕ → ℕ → Bool) : Except BenchError MatrixResult :=
  match checkConfig cfg with
  | some e => .error e
  | none =>
    let st := optimizeLoop cfg evalR shouldPrune
    match bestValue? st with
    | none => .error .noCompletedTrials
    | some best =>
      .ok
        { framework := "optuna"
          sampler := cfg.sampler
          objective := cfg.objective
          n_params := cfg.n_params
          n_trials := cfg.n_trials
          pruner := cfg.pruner
          tier := cfg.tier
          best_value := best
          pruned_trials := st.pruned_count
          pruning_rate := if 0 < cfg.n_trials then mkRat st.pruned_count cfg.n_trials else 0
          convergence := (padConvergence st.convergence best).take 5
          seed := 42 }

/-! ## `generate_report.py`: loading, grouping, formatting, winners -/

/-- Embeds `generate_report.BenchmarkResult`: one parsed result record.  Integer
JSON fields are `ℤ`; float fields are `PyFloat` (a JSON record can carry
`Infinity`, `-Infinity` or `NaN`, which Python's `json.load` accepts). -/
structure ReportResult where
  framework : String
  sampler : String
  objective : String
  n_params : ℤ
  n_trials : ℤ
  pruner : String
  tier : String
  best_value : PyFloat
  elapsed_ms : PyFloat
  trials_per_second : PyFloat
  pruned_trials : ℤ
  pruning_rate : PyFloat
  convergence : List PyFloat
  seed : ℤ
deriving DecidableEq, Repr

/-- The canonical six-field configuration key (`BenchmarkResult.key`). -/
abbrev ConfigKey := String × String × ℤ × ℤ × String × String

def ReportResult.key (r : ReportResult) : ConfigKey :=
  (r.sampler, r.objective, r.n_params, r.n_trials, r.pruner, r.tier)

/-! ### Python `dict` model

Insertion-ordered association list with Python `dict` update semantics:
assigning to an existing key replaces its value in place, a new key is
appended at the end. -/

def dictSet {α β : Type} [DecidableEq α] : List (α × β) → α → β → List (α × β)
  | [], a, b => [(a, b)]
  | (x, y) :: t, a, b => if x = a then (x, b) :: t else (x, y) :: dictSet t a b

def dictGet {α β : Type} [DecidableEq α] : List (α × β) → α → Option β
  | [], _ => none
  | (x, y) :: t, a => if x = a then some y else dictGet t a

/-- The loop body of `group_by_config`:
`grouped[key][result.framework] = result` over a `defaultdict(dict)`. -/
def groupInsert (g : List (ConfigKey × List (String × ReportResult)))
    (r : ReportResult) : List (ConfigKey × List (String × ReportResult)) :=
  dictSet g r.key (dictSet ((dictGet g r.key).getD []) r.framework r)

/-- Embeds `group_by_config(results)`: fold `groupInsert` over the results in
input order. -/
def group_by_config (results : List ReportResult) :
    List (ConfigKey × List (String × ReportResult)) :=
  results.foldl groupInsert []

/-- Lookup of `grouped[key][framework]` in the grouped structure. -/
def groupGet (g : List (ConfigKey × List (String × ReportResult)))
    (k : ConfigKey) (fw : String) : Option ReportResult :=
  (dictGet g k).bind fun d => dictGet d fw

/-! ### `load_results`

The file system is abstracted as the directory-exists flag together with the
list of `*.json` files the glob yields, each paired with its parse outcome
(`none` models "json.load or BenchmarkResult(data) raised"; the external
JSON parser is not embedded).  `sorted(input_path.glob("*.json"))` orders
paths by their (case-sensitive, code-point) string order on POSIX, which for
files of one directory is the lexicographic filename order. -/

structure ResultsDir where
  dirExists : Bool
  files : List (String × Option ReportResult)

/-- The relation `sorted` uses on the glob results: filename order. -/
def fileLe (a b : String × Option ReportResult) : Prop := a.1 ≤ b.1

instance : DecidableRel fileLe := fun a b =>
  decidable_of_iff (a.1.toList ≤ b.1.toList) String.le_iff_toList_le.symm

instance : IsTotal (String × Option ReportResult) fileLe := ⟨fun a b => le_total a.1 b.1⟩

instance : IsTrans (String × Option ReportResult) fileLe := ⟨fun _ _ _ h h' => le_trans h h'⟩

/-- The `for json_file in sorted(input_path.glob("*.json"))` loop, keeping the
filename of each successfully parsed record (failures are skipped with a
warning). -/
def parsedFiles (dir : ResultsDir) : List (String × ReportResult) :=
  if dir.dirExists then
    (List.insertionSort fileLe dir.files).filterMap fun nc => nc.2.map fun r => (nc.1, r)
  else []

/-- Embeds `load_results(input_dir)`: the successfully parsed records, in ascending
filename order; an absent directory yields `[]`. -/
def load_results (dir : ResultsDir) : List ReportResult :=
  (parsedFiles dir).map Prod.snd

/-! ### `format_value` -/

/-- Left-pad a digit string with zeros to width `w`. -/
def padZeros (s : String) (w : ℕ) : String :=
  String.mk (List.replicate (w - s.length) '0') ++ s

/-- Round a nonnegative rational to the nearest natural, ties to even
(the rounding Python's fixed-point float formatting performs on the exact
value of the double). -/
def roundHalfEven (q : ℚ) : ℕ :=
  let n := (⌊q⌋).toNat
  let frac := q - n
  if frac > 1 / 2 then n + 1
  else if frac < 1 / 2 then n
  else if n % 2 = 0 then n else n + 1

/-- Python `f"{q:.precf}"` for a finite double of exact value `q`. -/
def fixedString (prec : ℕ) (q : ℚ) : String :=
  let sign := if q < 0 then "-" else ""
  let m := roundHalfEven (|q| * 10 ^ prec)
  if prec = 0 then sign ++ toString m
  else sign ++ toString (m / 10 ^ prec) ++ "." ++ padZeros (toString (m % 10 ^ prec)) prec

/-- Python `f"{v:.precf}"` on any double: non-finite values render as their
raw tokens `nan` / `inf` / `-inf`. -/
def formatFixed (prec : ℕ) (v : PyFloat) : String :=
  match v with
  | .nan => "nan"
  | .posInf => "inf"
  | .negInf => "-inf"
  | .finite q => fixedString prec q

/-- Exponent suffix of Python `%e` formatting: sign plus at least two digits. -/
def expSuffix (e : ℤ) : String :=
  let sign := if e < 0 then "-" else "+"
  let a := e.natAbs
  sign ++ (if a < 10 then "0" ++ toString a else toString a)

/-- Python `f"{q:.2e}"` for a finite double of exact value `q`. -/
def sciString2 (q : ℚ) : String :=
  if q = 0 then "0.00e+00"
  else
    let sign := if q < 0 then "-" else ""
    let e := Int.log 10 |q|
    let m := roundHalfEven (|q| / (10 : ℚ) ^ e * 100)
    let me := if 1000 ≤ m then (100, e + 1) else (m, e)
    sign ++ toString (me.1 / 100) ++ "." ++ padZeros (toString (me.1 % 100)) 2
      ++ "e" ++ expSuffix me.2

/-- Python `f"{v:.2e}"` on any double. -/
def formatSci2 (v : PyFloat) : String :=
  match v with
  | .nan => "nan"
  | .posInf => "inf"
  | .negInf => "-inf"
  | .finite q => sciString2 q

/-- Embeds `format_value(value, is_time)` from `generate_report.py`.  The literal
`0.001` is the double nearest `1/1000`; for double inputs
`abs(value) < 0.001` agrees with `abs(value) < 1/1000` (no double lies
between them), so the threshold is embedded as the exact rational. -/
def format_value (value : PyFloat) (is_time : Bool := false) : String :=
  if value.beq .posInf then "N/A"
  else if is_time then
    if value.bge (.finite 60000) then formatFixed 1 (value.divConst 1000) ++ "s"
    else formatFixed 0 value ++ "ms"
  else
    if value.pabs.blt (.finite (1 / 1000)) then formatSci2 value
    else if value.pabs.blt (.finite 1) then formatFixed 4 value
    else formatFixed 2 value

/-- The quality-winner expression of `generate_summary_tables`
(`generate_report.py` line 108), for the pair
(`cs.best_value`, `py.best_value`): Python `!=` and `<` are IEEE. -/
def qualityWinner (cs py : PyFloat) : String :=
  if (!cs.beq .posInf) && (!py.beq .posInf) && cs.blt py then "OptiSharp"
  else if (!py.beq .posInf) && (!cs.beq .posInf) && py.blt cs then "Optuna"
  else "Tie"

/-! ### Derived notions used to state the claims -/

/-- "Result `r` belongs to slot `(k, fw)`": its canonical key is `k` and its
framework is `fw`. -/
def matchKF (k : ConfigKey) (fw : String) (r : ReportResult) : Bool :=
  decide (r.key = k ∧ r.framework = fw)

/-- The parsed files (in load order) whose record belongs to slot `(k, fw)`. -/
def matchedFiles (dir : ResultsDir) (k : ConfigKey) (fw : String) :
    List (String × ReportResult) :=
  (parsedFiles dir).filter fun nr => matchKF k fw nr.2

deriving instance DecidableEq for Except

/-- A concrete result record used by witnesses. -/
def sampleResult (fw : String) (bv : ℚ) : ReportResult :=
  { framework := fw
    sampler := "tpe"
    objective := "sphere"
    n_params := 2
    n_trials := 10
    pruner := "none"
    tier := "fast"
    best_value := .finite bv
    elapsed_ms := .finite 100
    trials_per_second := .finite 100
    pruned_trials := 0
    pruning_rate := .finite 0
    convergence := [.finite 1, .finite 1, .finite 1, .finite 1, .finite bv]
    seed := 42 }

/-! ## Helper lemmas -/

theorem getLast?_cons_eq_or {α : Type} (a : α) (l : List α) :
    (a :: l).getLast? = l.getLast?.or (some a) := by
  cases l with
  | nil => rfl
  | cons b t =>
    rw [List.getLast?_cons_cons]
    cases h : (b :: t).getLast? with
    | none => simp [List.getLast?_eq_none_iff] at h
    | some x => simp [h]

theorem mem_of_getLast?_eq {α : Type} {l : List α} {a : α}
    (h : l.getLast? = some a) : a ∈ l := by
  have hm : a ∈ l.getLast? := by rw [Option.mem_def]; exact h
  obtain ⟨hne, heq⟩ := List.mem_getLast?_eq_getLast hm
  rw [heq]
  exact List.getLast_mem hne

theorem dictGet_dictSet_self {α β : Type} [DecidableEq α]
    (l : List (α × β)) (a : α) (b : β) : dictGet (dictSet l a b) a = some b := by
  induction l with
  | nil => simp [dictSet, dictGet]
  | cons p t ih =>
    obtain ⟨x, y⟩ := p
    by_cases h : x = a
    · subst h
      simp [dictSet, dictGet]
    · simp [dictSet, dictGet, h, ih]

theorem dictGet_dictSet_ne {α β : Type} [DecidableEq α]
    (l : List (α × β)) (a a' : α) (b : β) (h : a' ≠ a) :
    dictGet (dictSet l a b) a' = dictGet l a' := by
  induction l with
  | nil => simp [dictSet, dictGet, Ne.symm h]
  | cons p t ih =>
    obtain ⟨x, y⟩ := p
    by_cases hx : x = a
    · subst hx
      simp [dictSet, dictGet, Ne.symm h]
    · simp only [dictSet, if_neg hx, dictGet]
      by_cases hx' : x = a'
      · simp [hx']
      · simp [hx', ih]

theorem groupGet_groupInsert (g : List (ConfigKey × List (String × ReportResult)))
    (r : ReportResult) (k : ConfigKey) (fw : String) :
    groupGet (groupInsert g r) k fw =
      if matchKF k fw r then some r else groupGet g k fw := by
  by_cases hk : r.key = k
  · subst hk
    rw [groupInsert, groupGet, dictGet_dictSet_self, Option.some_bind]
    by_cases hf : r.framework = fw
    · subst hf
      rw [dictGet_dictSet_self, if_pos (by simp [matchKF])]
    · rw [dictGet_dictSet_ne _ _ _ _ (fun he => hf he.symm),
        if_neg (by simp [matchKF, hf])]
      rw [groupGet]
      cases hg : dictGet g r.key with
      | none => simp [hg, dictGet]
      | some d => simp [hg]
  · rw [groupInsert, groupGet, dictGet_dictSet_ne _ _ _ _ (fun he => hk he.symm),
      if_neg (by simp [matchKF, hk]), groupGet]

theorem groupGet_foldl (rs : List ReportResult)
    (g : List (ConfigKey × List (String × ReportResult))) (k : ConfigKey) (fw : String) :
    groupGet (rs.foldl groupInsert g) k fw =
      ((rs.filter (matchKF k fw)).getLast?).or (groupGet g k fw) := by
  induction rs generalizing g with
  | nil => simp
  | cons r t ih =>
    rw [List.foldl_cons, ih, groupGet_groupInsert, List.filter_cons]
    by_cases h : matchKF k fw r
    · rw [if_pos h, if_pos h, getLast?_cons_eq_or, Option.or_assoc]
      cases ht : (t.filter (matchKF k fw)).getLast? <;> rfl
    · rw [if_neg h, if_neg h]

theorem groupGet_group_by_config (rs : List ReportResult) (k : ConfigKey) (fw : String) :
    groupGet (group_by_config rs) k fw = (rs.filter (matchKF k fw)).getLast? := by
  rw [group_by_config, groupGet_foldl]
  cases h : (rs.filter (matchKF k fw)).getLast? <;> rfl

/-! ## Claims -/

/-- C8: `get_intermediate_value(v, 9, t, s) = v` for all `v`, `t`, `s` —
the final checkpoint (step 9) is always exact. -/
theorem c8_final_step_exact (v : ℚ) (t s : ℕ) :
    get_intermediate_value v 9 t s = v := rfl

/-- C7: `get_intermediate_value` is deterministic — two calls with identical
`(true_value, step, trial_number, seed)` arguments produce bit-identical
output. -/
theorem c7_deterministic (v₁ v₂ : ℚ) (s₁ s₂ t₁ t₂ sd₁ sd₂ : ℕ)
    (hv : v₁ = v₂) (hs : s₁ = s₂) (ht : t₁ = t₂) (hsd : sd₁ = sd₂) :
    get_intermediate_value v₁ s₁ t₁ sd₁ = get_intermediate_value v₂ s₂ t₂ sd₂ := by
  subst hv hs ht hsd
  rfl

/-- Witness for C7, at the spec's end-to-end scenario 3 input
`(10.0, 5, 7, 42)`. -/
theorem c7_deterministic_witness :
    get_intermediate_value 10 5 7 42 = get_intermediate_value 10 5 7 42 :=
  c7_deterministic 10 10 5 5 7 7 42 42 rfl rfl rfl rfl

/-- C9: loading results from a directory that does not exist returns the
empty list rather than raising an error. -/
theorem c9_missing_dir (dir : ResultsDir) (h : dir.dirExists = false) :
    load_results dir = [] := by
  simp [load_results, parsedFiles, h]

/-- Witness for C9: a missing directory whose (hypothetical) listing is
non-empty still loads as the empty list. -/
theorem c9_missing_dir_witness :
    load_results ⟨false, [("stale.json", none)]⟩ = [] :=
  c9_missing_dir ⟨false, [("stale.json", none)]⟩ rfl

/-- C5 counterexample: the claim says every non-finite value renders as the
not-available marker, but `format_value(-inf)` renders the raw infinity
token `"-inf"`, not `"N/A"`. -/
theorem c5_counterexample :
    format_value .negInf false = "-inf" ∧ "-inf" ≠ "N/A" :=
  ⟨rfl, by decide⟩

/-- C5 amended: only positive infinity (the unset sentinel) renders as the
`"N/A"` marker (in both plain and time mode); negative infinity renders as
the raw token `"-inf"` (`"-infms"` in time mode) and NaN as `"nan"`
(`"nanms"` in time mode).  The function is total — it never crashes. -/
theorem c5_amended :
    format_value .posInf false = "N/A"
    ∧ format_value .posInf true = "N/A"
    ∧ format_value .negInf false = "-inf"
    ∧ format_value .negInf true = "-infms"
    ∧ format_value .nan false = "nan"
    ∧ format_value .nan true = "nanms" :=
  ⟨rfl, rfl, rfl, rfl, rfl, rfl⟩

/-- C1: the claim says every `run_benchmark` invocation yields a length-5
convergence list and never raises.  The code contradicts it (and its own
`# Ensure we have exactly 5 convergence points` intent): with
`n_trials = 5` the first checkpoint boundary is `int(5*0.2) - 1 = 0`, so
trial 0 queries `study.best_value` before any trial has completed;
the resulting `ValueError` aborts `study.optimize`, and the padding loop
re-raises it out of `run_benchmark` — no result is produced.  This theorem
evaluates the embedded driver at that failing input. -/
theorem c1_convergence_crash :
    run_benchmark ⟨"tpe", "sphere", 2, 5, "none", "fast"⟩
        (fun _ => .value 1) (fun _ _ => false) = .error .noCompletedTrials := by
  rfl

/-- C6: `group_by_config` partitions its input.  (i) The entry stored at
`(k, fw)` is exactly the LAST input result with key `k` and framework `fw`
(last-write-wins, at most one result per framework per key); (ii) everything
stored at `(k, fw)` really has key `k` and framework `fw` (so a result is
assigned only to the group of its own six-field key, and two results with
the same key and different frameworks land in the same group); (iii) every
input result's `(key, framework)` slot is occupied (every result appears in
its group). -/
theorem c6_group_partition (rs : List ReportResult) :
    (∀ k fw, groupGet (group_by_config rs) k fw = (rs.filter (matchKF k fw)).getLast?)
    ∧ (∀ k fw r, groupGet (group_by_config rs) k fw = some r →
        r.key = k ∧ r.framework = fw)
    ∧ (∀ r ∈ rs, ∃ r', groupGet (group_by_config rs) r.key r.framework = some r') := by
  refine ⟨groupGet_group_by_config rs, ?_, ?_⟩
  · intro k fw r h
    rw [groupGet_group_by_config] at h
    have hmem := mem_of_getLast?_eq h
    have := List.of_mem_filter hmem
    simpa [matchKF] using this
  · intro r hr
    rw [groupGet_group_by_config]
    have hmem : r ∈ rs.filter (matchKF r.key r.framework) :=
      List.mem_filter_of_mem hr (by simp [matchKF])
    cases h : (rs.filter (matchKF r.key r.framework)).getLast? with
    | none =>
      rw [List.getLast?_eq_none_iff] at h
      rw [h] at hmem
      simp at hmem
    | some r' => exact ⟨r', rfl⟩

/-- Witness for C6: two results with identical key and framework — the later
one in input order is the one retained. -/
theorem c6_group_partition_witness :
    groupGet (group_by_config [sampleResult "optuna" 1, sampleResult "optuna" 2])
        ("tpe", "sphere", 2, 10, "none", "fast") "optuna"
      = some (sampleResult "optuna" 2) := by
  rw [(c6_group_partition [sampleResult "optuna" 1, sampleResult "optuna" 2]).1
    ("tpe", "sphere", 2, 10, "none", "fast") "optuna"]
  decide

/-- C3 counterexample: the claim says a non-finite `best_value` on either
side yields no numeric winner (a tie), but the code only guards against
`+inf`: a `best_value` of `-inf` (non-finite) is declared the winner against
a finite value. -/
theorem c3_counterexample :
    qualityWinner .negInf (.finite 1) = "OptiSharp" ∧ "OptiSharp" ≠ "Tie" :=
  ⟨rfl, by decide⟩

/-- C3 amended: the quality-winner guard treats exactly `+inf` as "unset".
If either side equals `+inf`, or either side is NaN, or the two values are
(IEEE-)equal, the outcome is a tie; for values that are not `+inf`
(including `-inf`), the strictly smaller one wins, and the decision is
antisymmetric: A wins against B iff B loses against A. -/
theorem c3_winner_amended (a b : PyFloat) :
    ((a = .posInf ∨ b = .posInf) → qualityWinner a b = "Tie")
    ∧ ((a = .nan ∨ b = .nan) → qualityWinner a b = "Tie")
    ∧ (a = b → qualityWinner a b = "Tie")
    ∧ (a ≠ .posInf → b ≠ .posInf → a.blt b = true → qualityWinner a b = "OptiSharp")
    ∧ (a ≠ .posInf → b ≠ .posInf → b.blt a = true → qualityWinner a b = "Optuna")
    ∧ (qualityWinner a b = "OptiSharp" ↔ qualityWinner b a = "Optuna") := by
  rcases a with qa | _ | _ | _ <;> rcases b with qb | _ | _ | _ <;>
    simp only [qualityWinner, PyFloat.beq, PyFloat.blt] <;>
    try simp_all
  rcases lt_trichotomy qa qb with h | h | h
  · have h' : ¬ qb < qa := not_lt_of_gt h
    simp [h, h', ne_of_gt h, ne_of_lt h]
  · subst h
    simp [lt_irrefl]
  · have h' : ¬ qa < qb := not_lt_of_gt h
    simp [h, h', ne_of_gt h, ne_of_lt h, le_of_lt h]

/-- Witness for C3: both values finite, `1 < 2`, so the smaller side wins. -/
theorem c3_winner_amended_witness :
    qualityWinner (.finite 1) (.finite 2) = "OptiSharp" :=
  (c3_winner_amended (.finite 1) (.finite 2)).2.2.2.1
    (by decide) (by decide) (by decide)

/-! ## Trial-loop lemmas for C2 -/

theorem trialStep_of_aborted (cfg : MatrixConfig) (ev : ℕ → TrialEval)
    (sp : ℕ → ℕ → Bool) (st : LoopState) (t : ℕ) (h : st.aborted = true) :
    trialStep cfg ev sp st t = st := by
  simp [trialStep, h]

theorem foldl_trialStep_of_aborted (cfg : MatrixConfig) (ev : ℕ → TrialEval)
    (sp : ℕ → ℕ → Bool) (l : List ℕ) (st : LoopState) (h : st.aborted = true) :
    l.foldl (trialStep cfg ev sp) st = st := by
  induction l with
  | nil => rfl
  | cons a t ih => rw [List.foldl_cons, trialStep_of_aborted _ _ _ _ _ h, ih]

theorem trialStep_executed (cfg : MatrixConfig) (ev : ℕ → TrialEval)
    (sp : ℕ → ℕ → Bool) (st : LoopState) (t : ℕ) (h : st.aborted = false) :
    (trialStep cfg ev sp st t).executed = st.executed + 1 := by
  rw [trialStep]
  simp only [h, Bool.false_eq_true, if_false]
  cases ev t with
  | err => rfl
  | value v =>
    simp only
    split
    · rfl
    · split
      · cases bestValue? _ <;> rfl
      · rfl

theorem loopUpTo_succ (cfg : MatrixConfig) (ev : ℕ → TrialEval)
    (sp : ℕ → ℕ → Bool) (m : ℕ) :
    loopUpTo cfg ev sp (m + 1) =
      trialStep cfg ev sp (loopUpTo cfg ev sp m) m := by
  rw [loopUpTo, List.range_succ, List.foldl_append]
  rfl

theorem loopUpTo_aborted_of_aborted (cfg : MatrixConfig) (ev : ℕ → TrialEval)
    (sp : ℕ → ℕ → Bool) (m : ℕ)
    (h : (loopUpTo cfg ev sp m).aborted = true) :
    (loopUpTo cfg ev sp (m + 1)).aborted = true := by
  rw [loopUpTo_succ, trialStep_of_aborted _ _ _ _ _ h]
  exact h

theorem loopUpTo_executed (cfg : MatrixConfig) (ev : ℕ → TrialEval)
    (sp : ℕ → ℕ → Bool) : ∀ m, (loopUpTo cfg ev sp m).aborted = false →
    (loopUpTo cfg ev sp m).executed = m := by
  intro m
  induction m with
  | zero => intro _; rfl
  | succ m ih =>
    intro h
    have hm : (loopUpTo cfg ev sp m).aborted = false := by
      by_contra hc
      rw [Bool.not_eq_false] at hc
      exact absurd h (by rw [loopUpTo_aborted_of_aborted _ _ _ _ hc]; simp)
    rw [loopUpTo_succ, trialStep_executed _ _ _ _ _ hm, ih hm]

theorem loopUpTo_frozen (cfg : MatrixConfig) (ev : ℕ → TrialEval)
    (sp : ℕ → ℕ → Bool) (i m : ℕ) (him : i ≤ m)
    (h : (loopUpTo cfg ev sp i).aborted = true) :
    loopUpTo cfg ev sp m = loopUpTo cfg ev sp i := by
  obtain ⟨d, rfl⟩ := Nat.exists_eq_add_of_le him
  rw [loopUpTo, List.range_add, List.foldl_append]
  exact foldl_trialStep_of_aborted _ _ _ _ _ h

theorem checkConfig_eq_none (cfg : MatrixConfig)
    (ho : validObjective cfg.objective = true) (hs : validSampler cfg.sampler = true)
    (hp : validPruner cfg.pruner = true) : checkConfig cfg = none := by
  simp [checkConfig, ho, hs, hp]

/-- C2 counterexample: the claim says a provider-level exception in one trial
is absorbed and the remaining trials of the configuration still run.  With
`n_trials = 10` and a provider exception at trial 1, only 2 of the 10 trials
ever execute — trials 2–9 are skipped, because `study.optimize` re-raises
the exception and the driver's `except` block merely swallows it after the
loop has died. -/
theorem c2_counterexample :
    (optimizeLoop ⟨"tpe", "sphere", 2, 10, "none", "fast"⟩
        (fun t => if t = 1 then .err else .value 1) (fun _ _ => false)).executed = 2
    ∧ (2 : ℕ) ≠ 10 := by
  exact ⟨rfl, by decide⟩

/-- C2 amended: a provider-level exception during trial `i` (the loop having
run normally up to it) aborts `study.optimize` — the whole run state freezes
at trial `i`, exactly `i + 1` trials execute and the remaining
`n_trials - i - 1` trials never run.  The exception itself is absorbed by
`run_benchmark`'s `except` handler: for a validly named configuration in
which at least one trial completed, `run_benchmark` still returns a result
rather than propagating the provider error. -/
theorem c2_trial_error_aborts (cfg : MatrixConfig) (ev : ℕ → TrialEval)
    (sp : ℕ → ℕ → Bool) (i : ℕ) (hi : i < cfg.n_trials) (herr : ev i = .err)
    (hab : (loopUpTo cfg ev sp i).aborted = false) :
    optimizeLoop cfg ev sp = loopUpTo cfg ev sp (i + 1)
    ∧ (optimizeLoop cfg ev sp).executed = i + 1
    ∧ (optimizeLoop cfg ev sp).aborted = true
    ∧ (validObjective cfg.objective = true → validSampler cfg.sampler = true →
        validPruner cfg.pruner = true → (optimizeLoop cfg ev sp).completed ≠ [] →
        ∃ res, run_benchmark cfg ev sp = .ok res) := by
  have hsucc : (loopUpTo cfg ev sp (i + 1)).aborted = true := by
    rw [loopUpTo_succ, trialStep]
    simp only [hab, Bool.false_eq_true, if_false, herr]
  have hfreeze : optimizeLoop cfg ev sp = loopUpTo cfg ev sp (i + 1) :=
    loopUpTo_frozen cfg ev sp (i + 1) cfg.n_trials hi hsucc
  have hexec : (loopUpTo cfg ev sp (i + 1)).executed = i + 1 := by
    rw [loopUpTo_succ, trialStep_executed _ _ _ _ _ hab,
      loopUpTo_executed _ _ _ _ hab]
  refine ⟨hfreeze, by rw [hfreeze]; exact hexec, by rw [hfreeze]; exact hsucc, ?_⟩
  intro ho hs hp hcomp
  cases hb : bestValue? (optimizeLoop cfg ev sp) with
  | none =>
    rw [bestValue?, List.min?_eq_none_iff] at hb
    exact absurd hb hcomp
  | some b =>
    have hok : run_benchmark cfg ev sp =
        .ok { framework := "optuna", sampler := cfg.sampler, objective := cfg.objective,
              n_params := cfg.n_params, n_trials := cfg.n_trials, pruner := cfg.pruner,
              tier := cfg.tier, best_value := b,
              pruned_trials := (optimizeLoop cfg ev sp).pruned_count,
              pruning_rate := if 0 < cfg.n_trials then
                mkRat (optimizeLoop cfg ev sp).pruned_count cfg.n_trials else 0,
              convergence := (padConvergence (optimizeLoop cfg ev sp).convergence b).take 5,
              seed := 42 } := by
      rw [run_benchmark, checkConfig_eq_none cfg ho hs hp]
      simp only [hb]
    exact ⟨_, hok⟩

/-- Witness for C2: trial 2 of 10 raises; exactly three trials execute and
the run still returns a result. -/
theorem c2_trial_error_aborts_witness :
    (optimizeLoop ⟨"tpe", "sphere", 2, 10, "none", "fast"⟩
        (fun t => if t = 2 then .err else .value 1) (fun _ _ => false)).executed = 3
    ∧ ∃ res, run_benchmark ⟨"tpe", "sphere", 2, 10, "none", "fast"⟩
        (fun t => if t = 2 then .err else .value 1) (fun _ _ => false) = .ok res := by
  have h := c2_trial_error_aborts ⟨"tpe", "sphere", 2, 10, "none", "fast"⟩
    (fun t => if t = 2 then .err else .value 1) (fun _ _ => false) 2
    (by decide) rfl (by decide)
  exact ⟨h.2.1, h.2.2.2 rfl rfl rfl (by decide)⟩

/-- C4 counterexample: the claim says a non-positive `n_params` or
`n_trials` fails fast with a configuration error before any trial runs.
Instead, with `n_params = 0` (non-positive) and otherwise valid arguments,
`run_benchmark` validates nothing about the counts: all 10 trials execute
(each suggesting an empty parameter vector) and a result is returned with
no error at all. -/
theorem c4_counterexample :
    run_benchmark ⟨"tpe", "sphere", 0, 10, "none", "fast"⟩
        (fun _ => .value 1) (fun _ _ => false)
      = .ok { framework := "optuna", sampler := "tpe", objective := "sphere",
              n_params := 0, n_trials := 10, pruner := "none", tier := "fast",
              best_value := 1, pruned_trials := 0, pruning_rate := 0,
              convergence := [1, 1, 1, 1, 1], seed := 42 }
    ∧ (optimizeLoop ⟨"tpe", "sphere", 0, 10, "none", "fast"⟩
        (fun _ => .value 1) (fun _ _ => false)).executed = 10 := by
  exact ⟨by decide, rfl⟩

/-- C4 amended: only the three *name* checks fail fast — whenever
`checkConfig` rejects the configuration (unknown objective, sampler or
pruner name, in that source order), `run_benchmark` surfaces exactly that
error for every possible provider behaviour, i.e. before any trial can have
an effect.  Non-positive `n_params`/`n_trials` are not configuration-checked
(see the counterexample). -/
theorem c4_name_errors_fail_fast (cfg : MatrixConfig) (ev : ℕ → TrialEval)
    (sp : ℕ → ℕ → Bool) (e : BenchError) (h : checkConfig cfg = some e) :
    run_benchmark cfg ev sp = .error e := by
  rw [run_benchmark, h]

/-- Witness for C4: an unknown sampler name is rejected up front. -/
theorem c4_name_errors_fail_fast_witness :
    run_benchmark ⟨"bogus", "sphere", 2, 10, "none", "fast"⟩
        (fun _ => .value 1) (fun _ _ => false) = .error .unknownSampler :=
  c4_name_errors_fail_fast ⟨"bogus", "sphere", 2, 10, "none", "fast"⟩
    (fun _ => .value 1) (fun _ _ => false) .unknownSampler (by decide)

/-! ## Sorting lemmas for C10 -/

theorem sorted_sortFiles (l : List (String × Option ReportResult)) :
    (List.insertionSort fileLe l).Sorted fileLe :=
  List.sorted_insertionSort fileLe l

theorem pairwise_names_filterMap {l : List (String × Option ReportResult)}
    (h : l.Pairwise fileLe) :
    (l.filterMap fun nc => nc.2.map fun r => (nc.1, r)).Pairwise
      (fun a b : String × ReportResult => a.1 ≤ b.1) := by
  induction l with
  | nil => exact List.Pairwise.nil
  | cons p t ih =>
    rw [List.pairwise_cons] at h
    obtain ⟨hhead, htail⟩ := h
    cases hc : p.2 with
    | none =>
      rw [List.filterMap_cons, hc]
      exact ih htail
    | some r =>
      have hstep : (p :: t).filterMap (fun nc => nc.2.map fun r => (nc.1, r)) =
          (p.1, r) :: t.filterMap (fun nc => nc.2.map fun r => (nc.1, r)) := by
        simp [List.filterMap_cons, hc]
      rw [hstep, List.pairwise_cons]
      refine ⟨?_, ih htail⟩
      intro b hb
      obtain ⟨nc, hnc, hfb⟩ := List.mem_filterMap.mp hb
      have hle : fileLe p nc := hhead nc hnc
      cases hnc2 : nc.2 with
      | none => rw [hnc2] at hfb; simp at hfb
      | some r' =>
        rw [hnc2] at hfb
        have hb1 : b.1 = nc.1 := by
          rw [Option.map_some'] at hfb
          rw [Option.some_inj] at hfb
          rw [← hfb]
        rw [hb1]
        exact hle

theorem getLast?_is_max {α : Type} {R : α → α → Prop} :
    ∀ (l : List α), l.Pairwise R → ∀ (a : α), l.getLast? = some a →
    ∀ b ∈ l, b = a ∨ R b a := by
  intro l
  induction l with
  | nil => intro _ a ha; simp at ha
  | cons x t ih =>
    intro hp a ha b hb
    rw [List.pairwise_cons] at hp
    obtain ⟨hx, ht⟩ := hp
    cases t with
    | nil =>
      simp only [List.getLast?_singleton, Option.some_inj] at ha
      simp only [List.mem_singleton] at hb
      left
      rw [hb, ha]
    | cons y s =>
      rw [List.getLast?_cons_cons] at ha
      rcases List.mem_cons.mp hb with hbx | hbt
      · have hmem : a ∈ y :: s := mem_of_getLast?_eq ha
        right
        rw [hbx]
        exact hx a hmem
      · exact ih ht a ha b hbt

theorem sorted_perm_nodup_names_eq :
    ∀ (l₁ l₂ : List (String × Option ReportResult)), l₁.Perm l₂ →
      l₁.Sorted fileLe → l₂.Sorted fileLe → (l₁.map Prod.fst).Nodup → l₁ = l₂ := by
  intro l₁
  induction l₁ with
  | nil =>
    intro l₂ hperm _ _ _
    exact (List.Perm.eq_nil hperm.symm).symm
  | cons a t₁ ih =>
    intro l₂ hperm hs₁ hs₂ hnd
    cases l₂ with
    | nil => exact absurd (List.Perm.eq_nil hperm) (by simp)
    | cons b t₂ =>
      have hab : a = b := by
        have ha2 : a ∈ b :: t₂ := hperm.mem_iff.mp (List.mem_cons_self a t₁)
        rcases List.mem_cons.mp ha2 with h | hat₂
        · exact h
        · have hb1 : b ∈ a :: t₁ := hperm.symm.mem_iff.mp (List.mem_cons_self b t₂)
          rcases List.mem_cons.mp hb1 with h | hbt₁
          · exact h.symm
          · have hba : fileLe b a := List.rel_of_sorted_cons hs₂ a hat₂
            have hab' : fileLe a b := List.rel_of_sorted_cons hs₁ b hbt₁
            have hnames : a.1 = b.1 := le_antisymm hab' hba
            rw [List.map_cons, List.nodup_cons] at hnd
            exact absurd (hnames ▸ List.mem_map_of_mem Prod.fst hbt₁) hnd.1
      subst hab
      have hperm' : t₁.Perm t₂ := hperm.cons_inv
      rw [ih t₂ hperm' (List.sorted_cons.mp hs₁).2 (List.sorted_cons.mp hs₂).2
        (by rw [List.map_cons, List.nodup_cons] at hnd; exact hnd.2)]

/-- C10: `load_results` reads the result files in ascending lexicographic
filename order.  Given distinct filenames (true of any real directory):
(i) the loaded list is a function of the *set* of files — any permutation of
the directory listing loads identically, so the output order is uniquely
determined; (ii) the loaded list is ascending in filename; (iii) the entry
`group_by_config` retains for a slot `(k, fw)` is the last-loaded matching
record, i.e. the one from the last matching file in filename order; and
(iv) that file's name is lexicographically greatest among all files whose
record matches `(k, fw)`. -/
theorem c10_lexicographic_load (dir : ResultsDir)
    (hnd : (dir.files.map Prod.fst).Nodup) :
    (∀ dir' : ResultsDir, dir'.dirExists = dir.dirExists → dir'.files.Perm dir.files →
       load_results dir' = load_results dir)
    ∧ (parsedFiles dir).Pairwise (fun a b => a.1 ≤ b.1)
    ∧ (∀ k fw, groupGet (group_by_config (load_results dir)) k fw =
        ((matchedFiles dir k fw).getLast?).map Prod.snd)
    ∧ (∀ k fw n r, (matchedFiles dir k fw).getLast? = some (n, r) →
        ∀ n' r', (n', r') ∈ matchedFiles dir k fw → n' ≤ n) := by
  have hpw : (parsedFiles dir).Pairwise (fun a b : String × ReportResult => a.1 ≤ b.1) := by
    rw [parsedFiles]
    cases h : dir.dirExists with
    | false => exact List.Pairwise.nil
    | true =>
      rw [if_pos rfl]
      exact pairwise_names_filterMap (sorted_sortFiles dir.files)
  refine ⟨?_, hpw, ?_, ?_⟩
  · intro dir' he hperm
    cases h : dir.dirExists with
    | false =>
      rw [h] at he
      simp [load_results, parsedFiles, h, he]
    | true =>
      rw [h] at he
      have hps : (List.insertionSort fileLe dir'.files).Perm
          (List.insertionSort fileLe dir.files) :=
        (List.perm_insertionSort fileLe dir'.files).trans
          (hperm.trans (List.perm_insertionSort fileLe dir.files).symm)
      have hnd' : ((List.insertionSort fileLe dir'.files).map Prod.fst).Nodup := by
        refine hnd.perm ?_
        exact (((List.perm_insertionSort fileLe dir'.files).map Prod.fst).trans
          (hperm.map Prod.fst)).symm
      have heq := sorted_perm_nodup_names_eq _ _ hps
        (sorted_sortFiles dir'.files) (sorted_sortFiles dir.files) hnd'
      simp [load_results, parsedFiles, h, he, heq]
  · intro k fw
    have h1 : (load_results dir).filter (matchKF k fw) =
        (matchedFiles dir k fw).map Prod.snd := by
      rw [load_results, matchedFiles, List.filter_map]
      rfl
    rw [groupGet_group_by_config, h1, List.getLast?_map]
  · intro k fw n r hlast n' r' hmem
    have hpwm : (matchedFiles dir k fw).Pairwise
        (fun a b : String × ReportResult => a.1 ≤ b.1) := hpw.filter _
    rcases getLast?_is_max _ hpwm _ hlast (n', r') hmem with heq | hle
    · rw [Prod.mk.injEq] at heq
      exact le_of_eq heq.1
    · exact hle

/-- Witness for C10: a directory listed out of order with two files whose
records share key and framework — the retained record is the one from
`"b.json"`, the lexicographically greatest matching filename. -/
theorem c10_lexicographic_load_witness :
    groupGet (group_by_config (load_results
        ⟨true, [("b.json", some (sampleResult "optuna" 2)),
                ("a.json", some (sampleResult "optuna" 1))]⟩))
        ("tpe", "sphere", 2, 10, "none", "fast") "optuna"
      = some (sampleResult "optuna" 2) := by
  rw [(c10_lexicographic_load
      ⟨true, [("b.json", some (sampleResult "optuna" 2)),
              ("a.json", some (sampleResult "optuna" 1))]⟩ (by decide)).2.2.1
    ("tpe", "sphere", 2, 10, "none", "fast") "optuna"]
  decide

end OptiSharp
